import Mathlib

/-!
Shallow embedding of `pyopenreil/VM.py`, the REIL virtual machine:
the operator evaluator (`Math`), the sparse memory (`Mem`), the execution
core (`Cpu`), and the call-convention layer (`Abi`).

The source is Python 2 and performs its arithmetic on numpy fixed-width
integers.  The embedding therefore follows numpy's documented integer
semantics, which the Python operators inherit:

* `a / b` on numpy integers under Python 2 is `numpy.floor_divide`, i.e.
  floor division (rounding toward negative infinity), not C-style
  truncation toward zero;
* `a % b` is `numpy.remainder`, the remainder complementary to floor
  division, whose sign follows the divisor;
* integer division or remainder with a zero divisor does not raise: numpy
  emits a `RuntimeWarning` and the result is `0`;
* results wrap modulo `2^W` at the promoted operand width, and `.item()`
  returns the (possibly negative, for signed dtypes) machine value.
-/

namespace OpenreilVM

/-- REIL width tags (`U1, U8, U16, U32, U64` imported from the REIL module). -/
inductive Size where
  | u1 | u8 | u16 | u32 | u64
deriving DecidableEq, Repr

/-- Bit width used by the numpy conversion maps in `Math.val_u` / `Math.val_s`:
`U1` maps to `numpy.uint8` / `numpy.int8`, so arithmetically it behaves as an
8-bit quantity. -/
def Size.npBits : Size → Nat
  | .u1 => 8
  | .u8 => 8
  | .u16 => 16
  | .u32 => 32
  | .u64 => 64

/-- REIL opcodes (the `I_*` constants imported from the REIL module). -/
inductive Opcode where
  | I_NONE | I_JCC | I_STM | I_LDM
  | I_STR | I_ADD | I_SUB | I_NEG | I_MUL | I_DIV | I_MOD
  | I_SMUL | I_SDIV | I_SMOD
  | I_SHL | I_SHR | I_AND | I_OR | I_XOR | I_NOT | I_EQ | I_LT
deriving DecidableEq, Repr

/-- Modelled from the spec: REIL operands (`REIL.Arg`, imported by VM.py from
the REIL module, which is not among this repository's sources).  An operand is
a tagged union `Register(name) / Temp(name) / Const(value, width) / None`, and
every operand carries a width. -/
inductive Arg where
  | none
  | reg (name : String) (size : Size)
  | temp (name : String) (size : Size)
  | const (size : Size) (val : Int)
deriving DecidableEq, Repr

/-- Modelled from the spec: `Arg.get_val` yields the operand's concrete value.
`Math` and the opcode handlers only ever consult it on `Const` operands,
because `Cpu.arg` resolves registers and temporaries to constants first. -/
def Arg.get_val : Arg → Int
  | .const _ v => v
  | _ => 0

/-- The width carried by an operand (`arg.size` in the source). -/
def Arg.size : Arg → Size
  | .none => Size.u1
  | .reg _ s => s
  | .temp _ s => s
  | .const s _ => s

/-- Reinterpret an unsigned `w`-bit value as two's complement: this is what
applying `numpy.intN` to a same-width unsigned value does (`Math.val_s`). -/
def toSigned (w : Nat) (v : Nat) : Int :=
  if v < 2 ^ (w - 1) then (v : Int) else (v : Int) - 2 ^ w

namespace Math

/-- `Math.val_u`: the operand value converted to a numpy unsigned integer of
the operand's width; conversion wraps modulo `2^W`. -/
def valU (a : Arg) : Nat :=
  ((a.get_val) % ((2 : Int) ^ a.size.npBits)).toNat

/-- `Math.val_s`: the operand value converted to a numpy signed integer of the
operand's width (`numpy.intN` applied to the `numpy.uintN` value). -/
def valS (a : Arg) : Int :=
  toSigned a.size.npBits (valU a)

/-- `Math.eval` from VM.py under Python 2 / numpy integer semantics (see the
module docstring).  Binary results live at the promoted width (the larger of
the operand widths; equal for same-width operands).  The opcodes `I_NONE`,
`I_JCC`, `I_STM` and `I_LDM` never reach `Math.eval`: `Cpu.execute` routes
them to their own handlers, so their arms are unreachable filler. -/
def eval (op : Opcode) (a b : Arg) : Int :=
  let wu := max a.size.npBits b.size.npBits
  match op with
  | .I_STR => a.get_val
  | .I_ADD => ((valU a + valU b) % 2 ^ wu : Nat)
  | .I_SUB => ((2 ^ wu + valU a - valU b) % 2 ^ wu : Nat)
  | .I_NEG => ((2 ^ a.size.npBits - valU a) % 2 ^ a.size.npBits : Nat)
  | .I_MUL => ((valU a * valU b) % 2 ^ wu : Nat)
  | .I_DIV => if valU b = 0 then 0 else (valU a / valU b : Nat)
  | .I_MOD => if valU b = 0 then 0 else (valU a % valU b : Nat)
  | .I_SMUL => toSigned wu (((valS a * valS b) % (2 : Int) ^ wu).toNat)
  | .I_SDIV =>
      if valS b = 0 then 0
      else toSigned wu (((Int.fdiv (valS a) (valS b)) % (2 : Int) ^ wu).toNat)
  | .I_SMOD =>
      if valS b = 0 then 0
      else toSigned wu (((Int.fmod (valS a) (valS b)) % (2 : Int) ^ wu).toNat)
  | .I_SHL => ((valU a * 2 ^ valU b) % 2 ^ wu : Nat)
  | .I_SHR => (valU a / 2 ^ valU b : Nat)
  | .I_AND => (valU a &&& valU b : Nat)
  | .I_OR  => (valU a ||| valU b : Nat)
  | .I_XOR => (valU a ^^^ valU b : Nat)
  | .I_NOT => (2 ^ a.size.npBits - 1 - valU a : Nat)
  | .I_EQ  => if valU a = valU b then 1 else 0
  | .I_LT  => if valU a < valU b then 1 else 0
  | .I_NONE => 0
  | .I_JCC => 0
  | .I_STM => 0
  | .I_LDM => 0

end Math

/-- The error values raised by VM.py: `MemReadError(addr)`,
`MemWriteError(addr)`, `CpuReadError(addr)` and
`CpuInstructionError(addr, inum)` (`CpuError.__init__` stores `addr` and
`inum`, with `inum` defaulting to 0). -/
inductive VMError where
  | memRead (addr : Int)
  | memWrite (addr : Int)
  | cpuRead (addr : Int) (inum : Nat)
  | cpuInsn (addr : Int) (inum : Nat)
deriving DecidableEq, Repr

/-- The sparse byte map `Mem.data`: a partial function from address to one
byte (a Python dict from int to a one-character string). -/
def MemData := Int → Option Nat

/-- A single dict store `self.data[a] = b`. -/
def MemData.set (d : MemData) (a : Int) (b : Nat) : MemData :=
  fun x => if x = a then some b else d x

/-- The external memory reader interface:
`reader.read(addr, nbytes) -> bytes | None`. -/
def MemReader := Int → Nat → Option (List Nat)

/-- `Mem` (VM.py): the sparse byte store together with its optional external
reader and the strictness flag.  The bump-allocator cursor (`alloc_last`) is
omitted: no claim touches anonymous allocation. -/
structure Mem where
  data : MemData
  reader : Option MemReader
  strict : Bool

/-- `Mem.map_length`, the REIL type to byte length map.  `U1` has no entry in
the source dictionary (a `U1` store or load would raise a `KeyError`); it is
mapped to 0 here and excluded by hypothesis wherever it matters. -/
def Size.byteLen : Size → Nat
  | .u1 => 0
  | .u8 => 1
  | .u16 => 2
  | .u32 => 4
  | .u64 => 8

/-- `Mem.pack`: `struct.pack` of an unsigned value at the byte length of its
width, in the native byte order of the supported x86 hosts, i.e.
little-endian. -/
def Mem.pack (size : Size) (val : Nat) : List Nat :=
  (List.range size.byteLen).map fun i => val / 256 ^ i % 256

/-- `Mem.unpack`: `struct.unpack` of a little-endian byte string as an
unsigned value.  (`struct.unpack` demands a byte string of exactly the
format's length; every call site passes one, so the length check is not
modelled.) -/
def Mem.unpack (_size : Size) (val : List Nat) : Nat :=
  val.foldr (fun b acc => b + 256 * acc) 0

/-- The loop of `Mem._read`: collect `n` bytes starting at `addr + i`;
`none` models the `MemReadError(addr)` raised on the first undefined byte. -/
def mRead (d : MemData) (addr : Int) : Nat → Nat → Option (List Nat)
  | _, 0 => some []
  | i, n + 1 =>
    match d (addr + i) with
    | Option.none => Option.none
    | some b => (mRead d addr (i + 1) n).map fun rest => b :: rest

/-- The loop of `Mem._write`: store `data[i]` to `addr + i` one byte at a
time.  `false` models the `MemWriteError(addr)` raised on the first
undefined byte — by which point the earlier bytes of the range have already
been overwritten in place. -/
def mWrite (addr : Int) (data : List Nat) : MemData → Nat → Nat → MemData × Bool
  | d, _, 0 => (d, true)
  | d, i, n + 1 =>
    match d (addr + i) with
    | Option.none => (d, false)
    | some _ => mWrite addr data (d.set (addr + i) (data.getD i 0)) (i + 1) n

/-- The fill loop of `Mem.alloc`: bytes `addr .. addr+size-1` are set to
`data[i]`, zero-padded past the end of `data` (`data = None` is modelled as
the empty list). -/
def allocData (addr : Int) (data : List Nat) : MemData → Nat → Nat → MemData
  | d, _, 0 => d
  | d, i, n + 1 => allocData addr data (d.set (addr + i) (data.getD i 0)) (i + 1) n

/-- `Mem.alloc` with an explicit address: fill `size` bytes at `addr` from
`data`, zero-padded.  (When `alloc` is called with `data` and no `size`, the
source takes `size = len(data)`; call sites below pass that length
explicitly.) -/
def Mem.alloc (m : Mem) (addr : Int) (size : Nat) (data : List Nat) : Mem :=
  { m with data := allocData addr data m.data 0 size }

/-- `Mem.read`: try the sparse map; on a `MemReadError`, consult the external
reader if configured, install whatever bytes it returns via `alloc`, and
return them; re-raise the `MemReadError(addr)` when the reader is absent or
answers `None`. -/
def Mem.read (m : Mem) (addr : Int) (size : Nat) : Except VMError (Mem × List Nat) :=
  match mRead m.data addr 0 size with
  | some data => .ok (m, data)
  | Option.none =>
    match m.reader with
    | Option.none => .error (.memRead addr)
    | some rd =>
      match rd addr size with
      | Option.none => .error (.memRead addr)
      | some data => .ok (m.alloc addr data.length data, data)

/-- `Mem.write`: try the in-place `_write`; on a `MemWriteError`, re-raise in
strict mode unless the reader claims to know the address, and otherwise
allocate the target range with the caller's bytes.  The first component is
the resulting memory (mutated in place even on failure), the second the
raised error, if any. -/
def Mem.write (m : Mem) (addr : Int) (size : Nat) (data : List Nat) :
    Mem × Option VMError :=
  match mWrite addr data m.data 0 size with
  | (d, true) => ({ m with data := d }, Option.none)
  | (d, false) =>
    let m' : Mem := { m with data := d }
    if m.strict then
      match m.reader with
      | Option.none => (m', some (.memWrite addr))
      | some rd =>
        match rd addr size with
        | Option.none => (m', some (.memWrite addr))
        | some _ => (m'.alloc addr data.length data, Option.none)
    else (m'.alloc addr data.length data, Option.none)

/-- `Mem.store`: pack the value at the width's byte length and write it. -/
def Mem.store (m : Mem) (addr : Int) (size : Size) (val : Nat) :
    Mem × Option VMError :=
  m.write addr size.byteLen (Mem.pack size val)

/-- `Mem.load`: read `map_length[size]` bytes and unpack them (demand fill
may extend the memory, so the resulting `Mem` is returned as well). -/
def Mem.load (m : Mem) (addr : Int) (size : Size) : Except VMError (Mem × Nat) :=
  (m.read addr size.byteLen).map fun p => (p.1, Mem.unpack size p.2)

/-- Concrete example: a strict, readerless memory with bytes `0..7` defined
(zero), used to exercise the store/load round-trip. -/
def memRT : Mem :=
  ⟨fun a => if 0 ≤ a ∧ a < 8 then some 0 else Option.none, Option.none, true⟩

/-- Concrete example: the spec's S5 reader, serving `AA BB CC DD` for the
four bytes at `0x1000`. -/
def readerS5 : MemReader :=
  fun a n => if a = 0x1000 ∧ n = 4 then some [0xAA, 0xBB, 0xCC, 0xDD]
    else Option.none

/-- Concrete example: an empty strict memory wired to `readerS5`. -/
def memS5 : Mem := ⟨fun _ => Option.none, some readerS5, true⟩

/-- Concrete example: `memS5` after the demand fill installed the reader's
four bytes. -/
def memS5Filled : Mem :=
  memS5.alloc 0x1000 ([0xAA, 0xBB, 0xCC, 0xDD] : List Nat).length
    [0xAA, 0xBB, 0xCC, 0xDD]

/-- Concrete example: a fully undefined sparse map. -/
def dEmpty : MemData := fun _ => Option.none

/-- Concrete example: a strict, readerless memory where only byte `0` is
defined (holding `0xEE`), used to exhibit the non-atomic failing write. -/
def memC10 : Mem :=
  ⟨fun a => if a = 0 then some 0xEE else Option.none, Option.none, true⟩

/-- A register cell (`Reg` in VM.py): a 64-bit-backed value and the temp
flag. -/
structure RegV where
  val : Int
  isTemp : Bool
deriving DecidableEq, Repr

/-- The register file `Cpu.regs`: a dict from canonical name to register. -/
def RegFile := String → Option RegV

/-- Python's `str.upper()`, mapped structurally over the characters (unlike
`String.toUpper`, this reduces definitionally, so concrete machine runs can
be evaluated by the kernel). -/
def strUpper (s : String) : String := ⟨s.data.map Char.toUpper⟩

/-- `Cpu.reg`'s name canonicalization: upper-case the name, then prepend
`V_` (temp) or `R_` (persistent) unless the name already starts with one of
those prefixes. -/
def canonName (name : String) (isTemp : Bool) : String :=
  let u := strUpper name
  if u.take 2 = "R_" ∨ u.take 2 = "V_" then u
  else (if isTemp then "V_" else "R_") ++ u

/-- `Cpu.reg`: look up a register by canonical name, creating it with the
given value and temp flag when absent; returns the register together with
the (possibly extended) register file. -/
def Cpu.getReg (regs : RegFile) (name : String) (val : Int) (isTemp : Bool) :
    RegV × RegFile :=
  let n := canonName name isTemp
  match regs n with
  | some r => (r, regs)
  | Option.none =>
    (⟨val, isTemp⟩, fun x => if x = n then some ⟨val, isTemp⟩ else regs x)

/-- `self.reg(name).val = v`: ensure the register exists (created with
default value `0`), then overwrite its value in place. -/
def Cpu.setReg (regs : RegFile) (name : String) (isTemp : Bool) (v : Int) :
    RegFile :=
  let n := canonName name isTemp
  let old := (Cpu.getReg regs name 0 isTemp).1
  fun x => if x = n then some ⟨v, old.isTemp⟩ else regs x

/-- The name carried by a register or temporary operand (`arg.name`); other
operand kinds have no name attribute (accessing it would be an
`AttributeError`; no reachable path does). -/
def Arg.name : Arg → String
  | .reg n _ => n
  | .temp n _ => n
  | _ => ""

/-- The CPU state: register file plus the owned memory. -/
structure CpuSt where
  regs : RegFile
  mem : Mem

/-- Observation of the instruction-pointer register's current value (the
value `Cpu.set_ip` maintains; reading it through `Cpu.get_ip` would in fact
crash — `Reg` has no `get_val` attribute — but external code can read
`cpu.reg(ip).val` directly). -/
def CpuSt.ipVal (ip : String) (st : CpuSt) : Int :=
  (Cpu.getReg st.regs ip 0 false).1.val

/-- `Cpu.reset_temp`: drop every register whose temp flag is set. -/
def Cpu.resetTemp (regs : RegFile) : RegFile :=
  fun n =>
    match regs n with
    | some r => if r.isTemp then Option.none else some r
    | Option.none => Option.none

/-- A REIL instruction.  `addr`/`inum` identify it, `op` is the opcode and
`a`, `b`, `c` the operands.  Modelled from the spec: the `next` field is the
address returned (first component) by `REIL.Insn.next()`, the fallthrough
REIL address after this instruction's native step — the `Insn` class lives
in the REIL module, which is not among this repository's sources. -/
structure Insn where
  addr : Int
  inum : Nat
  op : Opcode
  a : Arg
  b : Arg
  c : Arg
  next : Int

/-- `Cpu.arg`: resolve an operand to a constant — registers and temporaries
are read (and lazily created at 0) from the register file, constants pass
through, `A_NONE` stays absent. -/
def Cpu.arg (regs : RegFile) (a : Arg) : Arg × RegFile :=
  match a with
  | .reg n s =>
    let p := Cpu.getReg regs n 0 false
    (.const s p.1.val, p.2)
  | .temp n s =>
    let p := Cpu.getReg regs n 0 true
    (.const s p.1.val, p.2)
  | .const s v => (.const s v, regs)
  | .none => (.none, regs)

/-- `Cpu.execute`: resolve the three operands (this may lazily create
registers), then dispatch on the opcode: `I_NONE` does nothing, `I_JCC`
returns the branch target when its condition is nonzero, `I_STM` stores to
memory, `I_LDM` loads from memory into `c`'s register, and every other
opcode routes through `Math.eval` into `c`'s register.  The result is the
new state and either the optional branch target or the raised error.
(The source's invalid-opcode check `insn.op not in REIL_INSN` cannot fire
here: `Opcode` enumerates exactly the REIL opcodes.  `struct.pack` would
reject an out-of-range store value; stores are wrapped to the
destination width here, which agrees on every value a well-formed program
produces.) -/
def Cpu.execute (st : CpuSt) (insn : Insn) : CpuSt × Except VMError (Option Int) :=
  let pa := Cpu.arg st.regs insn.a
  let pb := Cpu.arg pa.2 insn.b
  let pc := Cpu.arg pb.2 insn.c
  let a := pa.1
  let c := pc.1
  let st := { st with regs := pc.2 }
  match insn.op with
  | .I_NONE => (st, .ok Option.none)
  | .I_JCC =>
    (st, .ok (if a.get_val ≠ 0 then some c.get_val else Option.none))
  | .I_STM =>
    match st.mem.store c.get_val insn.a.size
        ((a.get_val % (2 : Int) ^ (8 * insn.a.size.byteLen)).toNat) with
    | (m', Option.none) => ({ st with mem := m' }, .ok Option.none)
    | (m', some e) => ({ st with mem := m' }, .error e)
  | .I_LDM =>
    match st.mem.load a.get_val insn.c.size with
    | .ok p =>
      ({ st with
          mem := p.1
          regs := Cpu.setReg st.regs insn.c.name false (p.2 : Int) },
       .ok Option.none)
    | .error e => (st, .error e)
  | op =>
    let r := Math.eval op pa.1 pb.1
    ({ st with regs := Cpu.setReg st.regs insn.c.name false r }, .ok Option.none)

/-- The inner `for insn in insn_list` loop of `Cpu.run`: execute each
instruction; a raised error propagates immediately; a taken branch `break`s
out with the target as the new `next` — crucially *without* running the
`self.set_ip(next)` line; a fallthrough sets `next` to the instruction's
fallthrough address and updates the IP register before continuing. -/
def Cpu.runList (ip : String) : CpuSt → Int → List Insn → CpuSt × Int × Option VMError
  | st, nxt, [] => (st, nxt, Option.none)
  | st, nxt, insn :: rest =>
    match Cpu.execute st insn with
    | (st', .error e) => (st', nxt, some e)
    | (st', .ok (some target)) => (st', target, Option.none)
    | (st', .ok Option.none) =>
      Cpu.runList ip
        { st' with regs := Cpu.setReg st'.regs ip false insn.next }
        insn.next rest

/-- The `while True` loop of `Cpu.run`, with explicit fuel (the source loop
can only leave by raising; exhausted fuel surfaces the running state with no
error).  A storage miss raises `CpuReadError(next)`; after each completed
instruction list the temp registers are cleared. -/
def Cpu.runLoop (ip : String) (storage : Int → Option (List Insn)) :
    Nat → CpuSt → Int → CpuSt × Option VMError
  | 0, st, _ => (st, Option.none)
  | fuel + 1, st, nxt =>
    match storage nxt with
    | Option.none => (st, some (.cpuRead nxt 0))
    | some insns =>
      match Cpu.runList ip st nxt insns with
      | (st', _, some e) => (st', some e)
      | (st', nxt', Option.none) =>
        Cpu.runLoop ip storage fuel
          { st' with regs := Cpu.resetTemp st'.regs } nxt'

/-- `Cpu.run`: set the IP to the start address and enter the loop. -/
def Cpu.run (ip : String) (storage : Int → Option (List Insn)) (st : CpuSt)
    (addr : Int) (fuel : Nat) : CpuSt × Option VMError :=
  Cpu.runLoop ip storage fuel
    { st with regs := Cpu.setReg st.regs ip false addr } addr

/-- Concrete example: a single taken `I_JCC` at `0x100` jumping to `0x200`
(fallthrough would be `0x101`). -/
def insnC8 : Insn :=
  ⟨0x100, 0, .I_JCC, .const .u1 1, .none, .const .u32 0x200, 0x101⟩

/-- Concrete example: code storage holding only the native instruction at
`0x100`, whose REIL expansion is the taken branch `insnC8`. -/
def storageC8 : Int → Option (List Insn) :=
  fun a => if a = 0x100 then some [insnC8] else Option.none

/-- Concrete example: a CPU with an empty register file over an empty strict
memory. -/
def cpuSt0 : CpuSt := ⟨fun _ => Option.none, ⟨dEmpty, Option.none, true⟩⟩

/-- `Abi.DUMMY_RET_ADDR`, the sentinel return address. -/
def DUMMY_RET_ADDR : Int := 0xcafebabe

/-- Whether an error is a `CpuError` — the class that `Abi.call`'s
`except CpuError` clause catches.  Both `CpuReadError` and
`CpuInstructionError` are subclasses of `CpuError` in VM.py. -/
def VMError.isCpu : VMError → Bool
  | .cpuRead _ _ => true
  | .cpuInsn _ _ => true
  | _ => false

/-- The faulting address an error carries (`e.addr`). -/
def VMError.addr : VMError → Int
  | .memRead a => a
  | .memWrite a => a
  | .cpuRead a _ => a
  | .cpuInsn a _ => a

/-- The `try/except` wrapped around `cpu.run` in `Abi.call`: a `CpuError`
whose address equals `DUMMY_RET_ADDR` is swallowed as normal completion
(`if e.addr != self.DUMMY_RET_ADDR: raise`); every other outcome
propagates. -/
def Abi.recover (r : Except VMError Unit) : Except VMError Unit :=
  match r with
  | .ok u => .ok u
  | .error e =>
    if e.isCpu = true then
      if e.addr ≠ DUMMY_RET_ADDR then .error e else .ok ()
    else .error e

/-- `Abi.align`: `val + (ptr_len - val % ptr_len)`. -/
def Abi.align (ptrLen : Nat) (val : Nat) : Nat :=
  val + (ptrLen - val % ptrLen)

/-- The number of bytes `Abi.buff` hands to `mem.alloc` for a payload of
`size` bytes: `self.align(size)`. -/
def Abi.buffSize (ptrLen : Nat) (size : Nat) : Nat :=
  Abi.align ptrLen size

/-- If every byte of the target range is defined, `Mem._write`'s loop
succeeds, writes `data[i+j]` to `addr+i+j`, and leaves all other addresses
untouched. -/
theorem mWrite_defined (addr : Int) (data : List Nat) (n : Nat) :
    ∀ (i : Nat) (d : MemData),
      (∀ j, j < n → (d (addr + (i + j : Nat))).isSome) →
      (mWrite addr data d i n).2 = true ∧
      (∀ a : Int, (∀ j, j < n → a ≠ addr + (i + j : Nat)) →
        (mWrite addr data d i n).1 a = d a) ∧
      (∀ j, j < n →
        (mWrite addr data d i n).1 (addr + (i + j : Nat)) =
          some (data.getD (i + j) 0)) := by
  induction n with
  | zero =>
    intro i d _
    exact ⟨rfl, fun a _ => rfl, fun j hj => absurd hj (by omega)⟩
  | succ n ih =>
    intro i d h
    obtain ⟨b, hb⟩ : ∃ b, d (addr + (i : Nat)) = some b := by
      have h0 := h 0 (by omega)
      simp only [Nat.add_zero] at h0
      exact Option.isSome_iff_exists.mp h0
    have hstep : mWrite addr data d i (n + 1) =
        mWrite addr data (d.set (addr + (i : Nat)) (data.getD i 0)) (i + 1) n := by
      simp [mWrite, hb]
    have hdef' : ∀ j, j < n →
        ((d.set (addr + (i : Nat)) (data.getD i 0)) (addr + (i + 1 + j : Nat))).isSome := by
      intro j hj
      by_cases hc : (addr + ((i + 1 + j : Nat) : Int)) = addr + (i : Nat)
      · simp only [MemData.set]
        rw [if_pos hc]
        simp
      · have e : (i + 1 + j : Nat) = (i + (j + 1) : Nat) := by omega
        have := h (j + 1) (by omega)
        rw [e]
        rw [e] at hc
        simpa [MemData.set, hc] using this
    obtain ⟨iht, ihp, ihv⟩ := ih (i + 1) (d.set (addr + (i : Nat)) (data.getD i 0)) hdef'
    refine ⟨by rw [hstep]; exact iht, ?_, ?_⟩
    · intro a ha
      rw [hstep]
      have hrest : (mWrite addr data (d.set (addr + (i : Nat)) (data.getD i 0))
          (i + 1) n).1 a = (d.set (addr + (i : Nat)) (data.getD i 0)) a := by
        apply ihp
        intro j hj
        have e : (i + 1 + j : Nat) = (i + (j + 1) : Nat) := by omega
        rw [e]
        exact ha (j + 1) (by omega)
      rw [hrest]
      have hne : a ≠ addr + (i : Nat) := by
        have := ha 0 (by omega)
        simpa using this
      simp [MemData.set, hne]
    · intro j hj
      rw [hstep]
      match j, hj with
      | 0, _ =>
        have hpres : (mWrite addr data (d.set (addr + (i : Nat)) (data.getD i 0))
            (i + 1) n).1 (addr + (i : Nat)) =
            (d.set (addr + (i : Nat)) (data.getD i 0)) (addr + (i : Nat)) := by
          apply ihp
          intro j' hj'
          omega
        simp only [Nat.add_zero]
        rw [hpres]
        simp [MemData.set]
      | j' + 1, hj =>
        have e : (i + 1 + j' : Nat) = (i + (j' + 1) : Nat) := by omega
        have := ihv j' (by omega)
        rw [e] at this
        exact this

/-- If some byte of the target range is undefined, `Mem._write`'s loop
reports failure (`MemWriteError`). -/
theorem mWrite_undef (addr : Int) (data : List Nat) (n : Nat) :
    ∀ (i : Nat) (d : MemData),
      (∃ j, j < n ∧ d (addr + (i + j : Nat)) = Option.none) →
      (mWrite addr data d i n).2 = false := by
  induction n with
  | zero => intro i d ⟨j, hj, _⟩; omega
  | succ n ih =>
    intro i d ⟨j, hj, hnone⟩
    cases hb : d (addr + (i : Nat)) with
    | none => simp [mWrite, hb]
    | some b =>
      have hj0 : j ≠ 0 := by
        rintro rfl
        rw [Nat.add_zero] at hnone
        rw [hnone] at hb
        exact Option.noConfusion hb
      have hstep : mWrite addr data d i (n + 1) =
          mWrite addr data (d.set (addr + (i : Nat)) (data.getD i 0)) (i + 1) n := by
        simp [mWrite, hb]
      rw [hstep]
      apply ih
      refine ⟨j - 1, by omega, ?_⟩
      have e : (i + 1 + (j - 1) : Nat) = (i + j : Nat) := by omega
      rw [e]
      simp only [MemData.set]
      rw [if_neg (by omega)]
      exact hnone

/-- If the first `k` bytes of the range are defined and byte `k` is not,
`Mem._write`'s loop fails — but only after having overwritten those first
`k` bytes with the new data; everything else is untouched. -/
theorem mWrite_prefix (addr : Int) (data : List Nat) (k : Nat) :
    ∀ (n i : Nat) (d : MemData),
      (∀ j, j < k → (d (addr + (i + j : Nat))).isSome) →
      d (addr + (i + k : Nat)) = Option.none →
      k < n →
      (mWrite addr data d i n).2 = false ∧
      (∀ a : Int, (∀ j, j < k → a ≠ addr + (i + j : Nat)) →
        (mWrite addr data d i n).1 a = d a) ∧
      (∀ j, j < k →
        (mWrite addr data d i n).1 (addr + (i + j : Nat)) =
          some (data.getD (i + j) 0)) := by
  induction k with
  | zero =>
    intro n i d _ hnone hk
    match n, hk with
    | n + 1, _ =>
      rw [Nat.add_zero] at hnone
      refine ⟨by simp [mWrite, hnone], fun a _ => by simp [mWrite, hnone],
        fun j hj => absurd hj (by omega)⟩
  | succ k ih =>
    intro n i d hdef hnone hk
    match n, hk with
    | n + 1, _ =>
      obtain ⟨b, hb⟩ : ∃ b, d (addr + (i : Nat)) = some b := by
        have h0 := hdef 0 (by omega)
        simp only [Nat.add_zero] at h0
        exact Option.isSome_iff_exists.mp h0
      have hstep : mWrite addr data d i (n + 1) =
          mWrite addr data (d.set (addr + (i : Nat)) (data.getD i 0)) (i + 1) n := by
        simp [mWrite, hb]
      have hdef' : ∀ j, j < k →
          ((d.set (addr + (i : Nat)) (data.getD i 0)) (addr + (i + 1 + j : Nat))).isSome := by
        intro j hj
        by_cases hc : (addr + ((i + 1 + j : Nat) : Int)) = addr + (i : Nat)
        · simp only [MemData.set]
          rw [if_pos hc]
          simp
        · have e : (i + 1 + j : Nat) = (i + (j + 1) : Nat) := by omega
          have := hdef (j + 1) (by omega)
          rw [e]
          rw [e] at hc
          simpa [MemData.set, hc] using this
      have hnone' : (d.set (addr + (i : Nat)) (data.getD i 0))
          (addr + (i + 1 + k : Nat)) = Option.none := by
        have e : (i + 1 + k : Nat) = (i + (k + 1) : Nat) := by omega
        rw [e]
        simp only [MemData.set]
        rw [if_neg (by omega)]
        exact hnone
      obtain ⟨iht, ihp, ihv⟩ :=
        ih n (i + 1) (d.set (addr + (i : Nat)) (data.getD i 0)) hdef' hnone' (by omega)
      refine ⟨by rw [hstep]; exact iht, ?_, ?_⟩
      · intro a ha
        rw [hstep]
        have hrest := ihp a (fun j hj => by
          have e : (i + 1 + j : Nat) = (i + (j + 1) : Nat) := by omega
          rw [e]
          exact ha (j + 1) (by omega))
        rw [hrest]
        have hne : a ≠ addr + (i : Nat) := by
          have := ha 0 (by omega)
          simpa using this
        simp [MemData.set, hne]
      · intro j hj
        rw [hstep]
        match j, hj with
        | 0, _ =>
          have hpres := ihp (addr + (i : Nat)) (fun j' hj' => by omega)
          simp only [Nat.add_zero]
          rw [hpres]
          simp [MemData.set]
        | j' + 1, hj =>
          have e : (i + 1 + j' : Nat) = (i + (j' + 1) : Nat) := by omega
          have := ihv j' (by omega)
          rw [e] at this
          exact this

/-- If the bytes of the range agree with the list `bytes` (whose tail the
range covers), `Mem._read`'s loop returns them. -/
theorem mRead_defined (addr : Int) (bytes : List Nat) (n : Nat) :
    ∀ (i : Nat) (d : MemData),
      (∀ j, j < n → d (addr + (i + j : Nat)) = some (bytes.getD (i + j) 0)) →
      i + n = bytes.length →
      mRead d addr i n = some (bytes.drop i) := by
  induction n with
  | zero =>
    intro i d _ hlen
    rw [show i = bytes.length by omega, List.drop_length]
    rfl
  | succ n ih =>
    intro i d h hlen
    have h0 := h 0 (by omega)
    simp only [Nat.add_zero] at h0
    have hi : i < bytes.length := by omega
    have hstep : mRead d addr i (n + 1) =
        (mRead d addr (i + 1) n).map fun rest => bytes.getD i 0 :: rest := by
      simp [mRead, h0]
    rw [hstep, ih (i + 1) d (fun j hj => by
        have e : (i + 1 + j : Nat) = (i + (j + 1) : Nat) := by omega
        rw [e]
        exact h (j + 1) (by omega)) (by omega)]
    rw [List.drop_eq_getElem_cons hi]
    simp [List.getD_eq_getElem?_getD, List.getElem?_eq_getElem hi]

/-- If some byte of the range is undefined, `Mem._read`'s loop fails
(`MemReadError`). -/
theorem mRead_undef (addr : Int) (n : Nat) :
    ∀ (i : Nat) (d : MemData),
      (∃ j, j < n ∧ d (addr + (i + j : Nat)) = Option.none) →
      mRead d addr i n = Option.none := by
  induction n with
  | zero => intro i d ⟨j, hj, _⟩; omega
  | succ n ih =>
    intro i d ⟨j, hj, hnone⟩
    cases hb : d (addr + (i : Nat)) with
    | none => simp [mRead, hb]
    | some b =>
      have hj0 : j ≠ 0 := by
        rintro rfl
        rw [Nat.add_zero] at hnone
        rw [hnone] at hb
        exact Option.noConfusion hb
      have hstep : mRead d addr i (n + 1) =
          (mRead d addr (i + 1) n).map fun rest => b :: rest := by
        simp [mRead, hb]
      rw [hstep, ih (i + 1) d ⟨j - 1, by omega, by
        have e : (i + 1 + (j - 1) : Nat) = (i + j : Nat) := by omega
        rw [e]
        exact hnone⟩]
      rfl

/-- `Mem.alloc`'s fill loop sets exactly the target range to the given data
(zero-padded) and leaves every other address untouched. -/
theorem allocData_spec (addr : Int) (data : List Nat) (n : Nat) :
    ∀ (i : Nat) (d : MemData),
      (∀ a : Int, (∀ j, j < n → a ≠ addr + (i + j : Nat)) →
        allocData addr data d i n a = d a) ∧
      (∀ j, j < n →
        allocData addr data d i n (addr + (i + j : Nat)) =
          some (data.getD (i + j) 0)) := by
  induction n with
  | zero => intro i d; exact ⟨fun a _ => rfl, fun j hj => absurd hj (by omega)⟩
  | succ n ih =>
    intro i d
    have hstep : allocData addr data d i (n + 1) =
        allocData addr data (d.set (addr + (i : Nat)) (data.getD i 0)) (i + 1) n := rfl
    obtain ⟨ihp, ihv⟩ := ih (i + 1) (d.set (addr + (i : Nat)) (data.getD i 0))
    refine ⟨?_, ?_⟩
    · intro a ha
      rw [hstep]
      rw [ihp a (fun j hj => by
        have e : (i + 1 + j : Nat) = (i + (j + 1) : Nat) := by omega
        rw [e]
        exact ha (j + 1) (by omega))]
      have hne : a ≠ addr + (i : Nat) := by
        have := ha 0 (by omega)
        simpa using this
      simp [MemData.set, hne]
    · intro j hj
      rw [hstep]
      match j, hj with
      | 0, _ =>
        have hpres := ihp (addr + (i : Nat)) (fun j' hj' => by omega)
        simp only [Nat.add_zero]
        rw [hpres]
        simp [MemData.set]
      | j' + 1, hj =>
        have e : (i + 1 + j' : Nat) = (i + (j' + 1) : Nat) := by omega
        have := ihv j' (by omega)
        rw [e] at this
        exact this

/-- `struct.pack` produces exactly `map_length[size]` bytes. -/
theorem pack_length (s : Size) (v : Nat) : (Mem.pack s v).length = s.byteLen := by
  simp [Mem.pack]

/-- Little-endian pack/unpack round-trip at any supported width, for values
that fit the width. -/
theorem unpack_pack (s : Size) (v : Nat) (hv : v < 2 ^ (8 * s.byteLen)) :
    Mem.unpack s (Mem.pack s v) = v := by
  cases s <;>
    simp only [Mem.pack, Mem.unpack, Size.byteLen, List.range_succ, List.range_zero,
      List.map_append, List.map_cons, List.map_nil, List.foldr_append, List.foldr_cons,
      List.foldr_nil, List.nil_append, List.cons_append] at hv ⊢ <;>
    norm_num at hv ⊢ <;> omega

/-- C1 (counterexample): at `W = U8`, `I_SDIV(0xFF, 0x02)` does not evaluate
to `0x00`: numpy integer division is floor division, so `-1 / 2 = -1`. -/
theorem sdiv_u8_not_trunc_toward_zero :
    Math.eval .I_SDIV (Arg.const .u8 0xFF) (Arg.const .u8 0x02) = -1 ∧
    Math.eval .I_SDIV (Arg.const .u8 0xFF) (Arg.const .u8 0x02) ≠ 0 := by
  decide

/-- C1 (amended): `I_SDIV` interprets same-width operands as two's-complement
signed integers of width `W` and divides with flooring toward negative
infinity (`Int.fdiv`); whenever the floor quotient is representable at width
`W`, it is returned exactly.  In particular at `W = U8`,
`I_SDIV(0xFF, 0x02) = -1` while `I_DIV(0xFF, 0x02) = 0x7F`. -/
theorem sdiv_signed_floor_division (w : Size) (x y : Int)
    (hy : Math.valS (Arg.const w y) ≠ 0)
    (hlo : -(2 ^ (w.npBits - 1)) ≤
      Int.fdiv (Math.valS (Arg.const w x)) (Math.valS (Arg.const w y)))
    (hhi : Int.fdiv (Math.valS (Arg.const w x)) (Math.valS (Arg.const w y)) <
      2 ^ (w.npBits - 1)) :
    Math.eval .I_SDIV (Arg.const w x) (Arg.const w y) =
      Int.fdiv (Math.valS (Arg.const w x)) (Math.valS (Arg.const w y)) ∧
    Math.eval .I_SDIV (Arg.const .u8 0xFF) (Arg.const .u8 0x02) = -1 ∧
    Math.eval .I_DIV (Arg.const .u8 0xFF) (Arg.const .u8 0x02) = 0x7F := by
  refine ⟨?_, by decide, by decide⟩
  simp only [Math.eval, if_neg hy]
  cases w <;>
    (simp only [Arg.size, Size.npBits, Nat.max_self] at hlo hhi ⊢
     generalize Int.fdiv (Math.valS (Arg.const _ x)) (Math.valS (Arg.const _ y)) = q
       at hlo hhi ⊢
     norm_num [toSigned] at hlo hhi ⊢
     split <;> omega)

/-- C1 (witness): the amended statement applied at `W = U8`,
`a = 0xF5` (signed `-11`), `b = 0x03`: the floor quotient is `-4`. -/
theorem sdiv_signed_floor_division_witness :
    Math.eval .I_SDIV (Arg.const .u8 0xF5) (Arg.const .u8 0x03) =
      Int.fdiv (Math.valS (Arg.const .u8 0xF5)) (Math.valS (Arg.const .u8 0x03)) ∧
    Math.eval .I_SDIV (Arg.const .u8 0xFF) (Arg.const .u8 0x02) = -1 ∧
    Math.eval .I_DIV (Arg.const .u8 0xFF) (Arg.const .u8 0x02) = 0x7F :=
  sdiv_signed_floor_division .u8 0xF5 0x03 (by decide) (by decide) (by decide)

/-- C2 (counterexample): evaluating `I_DIV` with divisor `0` does not fail:
numpy integer division by zero produces the value `0` (with a
`RuntimeWarning`), and no `ArithError` type exists anywhere in the source. -/
theorem div_by_zero_returns_value :
    Math.eval .I_DIV (Arg.const .u8 0x01) (Arg.const .u8 0x00) = 0 := by
  decide

/-- C2 (amended): for every width and dividend, each of `I_DIV`, `I_MOD`,
`I_SDIV`, `I_SMOD` with divisor `b = 0` returns the value `0` instead of
failing (numpy integer division/remainder by zero yields `0` after a
`RuntimeWarning`; the code defines no `ArithError`). -/
theorem div_mod_by_zero_yield_zero (w : Size) (x y : Int)
    (hy : Math.valU (Arg.const w y) = 0) :
    Math.eval .I_DIV (Arg.const w x) (Arg.const w y) = 0 ∧
    Math.eval .I_MOD (Arg.const w x) (Arg.const w y) = 0 ∧
    Math.eval .I_SDIV (Arg.const w x) (Arg.const w y) = 0 ∧
    Math.eval .I_SMOD (Arg.const w x) (Arg.const w y) = 0 := by
  have hs : Math.valS (Arg.const w y) = 0 := by
    simp [Math.valS, hy, toSigned, Nat.two_pow_pos]
  refine ⟨?_, ?_, ?_, ?_⟩ <;> simp [Math.eval, hy, hs]

/-- C2 (witness): the amended statement at `W = U8`, `a = 0xFF`, `b = 0`. -/
theorem div_mod_by_zero_yield_zero_witness :
    Math.eval .I_DIV (Arg.const .u8 0xFF) (Arg.const .u8 0) = 0 ∧
    Math.eval .I_MOD (Arg.const .u8 0xFF) (Arg.const .u8 0) = 0 ∧
    Math.eval .I_SDIV (Arg.const .u8 0xFF) (Arg.const .u8 0) = 0 ∧
    Math.eval .I_SMOD (Arg.const .u8 0xFF) (Arg.const .u8 0) = 0 :=
  div_mod_by_zero_yield_zero .u8 0xFF 0 (by decide)

/-- C3 (counterexample): at `U8`, `I_SMOD(0xFF, 0x02)` yields `1`, not
`-1` (nor `0xFF`): numpy remainder takes the sign of the divisor, not of the
dividend. -/
theorem smod_u8_not_dividend_sign :
    Math.eval .I_SMOD (Arg.const .u8 0xFF) (Arg.const .u8 0x02) = 1 ∧
    Math.eval .I_SMOD (Arg.const .u8 0xFF) (Arg.const .u8 0x02) ≠ -1 ∧
    Math.eval .I_SMOD (Arg.const .u8 0xFF) (Arg.const .u8 0x02) ≠ 0xFF := by
  decide

/-- C3 (amended): for same-width operands with nonzero divisor, `I_SMOD` is
the remainder complementary to floor division (`Int.fmod`, numpy
`remainder`), whose sign follows the *divisor*: for a positive divisor the
result is in `[0, b)` regardless of the dividend's sign.  At `U8`,
`I_SMOD(0xFF, 0x02)`, i.e. `-1 mod 2`, yields `+1`. -/
theorem smod_sign_follows_divisor (w : Size) (x y : Int)
    (hy : Math.valS (Arg.const w y) ≠ 0)
    (hlo : -(2 ^ (w.npBits - 1)) ≤
      Int.fmod (Math.valS (Arg.const w x)) (Math.valS (Arg.const w y)))
    (hhi : Int.fmod (Math.valS (Arg.const w x)) (Math.valS (Arg.const w y)) <
      2 ^ (w.npBits - 1)) :
    Math.eval .I_SMOD (Arg.const w x) (Arg.const w y) =
      Int.fmod (Math.valS (Arg.const w x)) (Math.valS (Arg.const w y)) ∧
    (0 < Math.valS (Arg.const w y) →
      0 ≤ Int.fmod (Math.valS (Arg.const w x)) (Math.valS (Arg.const w y)) ∧
      Int.fmod (Math.valS (Arg.const w x)) (Math.valS (Arg.const w y)) <
        Math.valS (Arg.const w y)) ∧
    Math.eval .I_SMOD (Arg.const .u8 0xFF) (Arg.const .u8 0x02) = 1 := by
  refine ⟨?_, fun hpos => ⟨Int.fmod_nonneg' _ hpos, Int.fmod_lt_of_pos _ hpos⟩,
    by decide⟩
  simp only [Math.eval, if_neg hy]
  cases w <;>
    (simp only [Arg.size, Size.npBits, Nat.max_self] at hlo hhi ⊢
     generalize Int.fmod (Math.valS (Arg.const _ x)) (Math.valS (Arg.const _ y)) = q
       at hlo hhi ⊢
     norm_num [toSigned] at hlo hhi ⊢
     split <;> omega)

/-- C3 (witness): the amended statement at `W = U8`, `a = 0xFF` (signed `-1`),
`b = 0x02`. -/
theorem smod_sign_follows_divisor_witness :
    Math.eval .I_SMOD (Arg.const .u8 0xFF) (Arg.const .u8 0x02) =
      Int.fmod (Math.valS (Arg.const .u8 0xFF)) (Math.valS (Arg.const .u8 0x02)) ∧
    (0 < Math.valS (Arg.const .u8 0x02) →
      0 ≤ Int.fmod (Math.valS (Arg.const .u8 0xFF)) (Math.valS (Arg.const .u8 0x02)) ∧
      Int.fmod (Math.valS (Arg.const .u8 0xFF)) (Math.valS (Arg.const .u8 0x02)) <
        Math.valS (Arg.const .u8 0x02)) ∧
    Math.eval .I_SMOD (Arg.const .u8 0xFF) (Arg.const .u8 0x02) = 1 :=
  smod_sign_follows_divisor .u8 0xFF 0x02 (by decide) (by decide) (by decide)

/-- C4: at every supported width W ∈ {U8, U16, U32, U64} and for every value
`k < 2^W`, on a memory whose affected bytes are writable (defined, hence
writable even in strict mode), `store(A, W, k)` succeeds and a subsequent
`load(A, W)` returns exactly `k`: little-endian packing round-trips. -/
theorem store_load_roundtrip (m : Mem) (addr : Int) (w : Size) (k : Nat)
    (hw : w ≠ Size.u1)
    (hk : k < 2 ^ (8 * w.byteLen))
    (hdef : ∀ j : Nat, j < w.byteLen → (m.data (addr + j)).isSome) :
    (m.store addr w k).2 = Option.none ∧
    (m.store addr w k).1.load addr w = Except.ok ((m.store addr w k).1, k) := by
  obtain ⟨ht, _, hvv⟩ := mWrite_defined addr (Mem.pack w k) w.byteLen 0 m.data
      (fun j hj => by simpa using hdef j hj)
  rcases hmw : mWrite addr (Mem.pack w k) m.data 0 w.byteLen with ⟨d', ok⟩
  rw [hmw] at ht hvv
  simp only at ht
  subst ht
  have hstore : m.store addr w k = ({ m with data := d' }, Option.none) := by
    simp [Mem.store, Mem.write, hmw]
  have hread : mRead d' addr 0 w.byteLen = some (Mem.pack w k) := by
    have := mRead_defined addr (Mem.pack w k) w.byteLen 0 d'
      (fun j hj => by simpa using hvv j hj) (by simp [pack_length])
    simpa using this
  refine ⟨by simp [hstore], ?_⟩
  rw [hstore]
  simp [Mem.load, Mem.read, hread, Except.map, unpack_pack w k hk]

/-- C4 (witness): the round-trip applied at `W = U64`,
`k = 0x1122334455667788`, on a strict memory whose bytes `0..7` are defined. -/
theorem store_load_roundtrip_witness :
    (memRT.store 0 .u64 0x1122334455667788).2 = Option.none ∧
    (memRT.store 0 .u64 0x1122334455667788).1.load 0 .u64 =
      Except.ok ((memRT.store 0 .u64 0x1122334455667788).1, 0x1122334455667788) :=
  store_load_roundtrip memRT 0 .u64 0x1122334455667788 (by decide) (by decide)
    (by decide)

/-- C5: reading a range containing an undefined byte.  If no reader is
configured, or the configured reader answers `None`, the read fails with
`MemReadError` carrying the requested address.  If the reader returns data
for the range, those bytes are installed into the sparse map and returned —
and a subsequent read of the same range succeeds with the same bytes no
matter what the reader is replaced by (so the reader is not consulted
again). -/
theorem demand_fill_read (m : Mem) (addr : Int) (size : Nat) (rd : MemReader)
    (bytes : List Nat)
    (hundef : ∃ j : Nat, j < size ∧ m.data (addr + j) = Option.none) :
    (m.reader = Option.none → m.read addr size = .error (.memRead addr)) ∧
    (m.reader = some rd → rd addr size = Option.none →
      m.read addr size = .error (.memRead addr)) ∧
    (m.reader = some rd → rd addr size = some bytes → bytes.length = size →
      m.read addr size = .ok (m.alloc addr bytes.length bytes, bytes) ∧
      (∀ j : Nat, j < size →
        (m.alloc addr bytes.length bytes).data (addr + j) = some (bytes.getD j 0)) ∧
      (∀ r' : Option MemReader,
        Mem.read { m.alloc addr bytes.length bytes with reader := r' } addr size =
          .ok ({ m.alloc addr bytes.length bytes with reader := r' }, bytes))) := by
  have hfail : mRead m.data addr 0 size = Option.none := by
    apply mRead_undef
    obtain ⟨j, hj, hn⟩ := hundef
    exact ⟨j, hj, by simpa using hn⟩
  refine ⟨fun h => by simp [Mem.read, hfail, h],
    fun h1 h2 => by simp [Mem.read, hfail, h1, h2], fun h1 h2 hlen => ?_⟩
  obtain ⟨_, hvals⟩ := allocData_spec addr bytes bytes.length 0 m.data
  have hinst : ∀ j : Nat, j < size →
      (m.alloc addr bytes.length bytes).data (addr + j) = some (bytes.getD j 0) := by
    intro j hj
    have := hvals j (by omega)
    simpa [Mem.alloc] using this
  have hread2 : mRead (m.alloc addr bytes.length bytes).data addr 0 size =
      some bytes := by
    have := mRead_defined addr bytes size 0 (m.alloc addr bytes.length bytes).data
      (fun j hj => by simpa using hinst j hj) (by omega)
    simpa using this
  refine ⟨by simp [Mem.read, hfail, h1, h2], hinst, fun r' => ?_⟩
  simp [Mem.read, hread2]

/-- C5 (witness): the scenario of the spec's S5 — a reader serving
`AA BB CC DD` at `0x1000..0x1003` on an otherwise empty strict memory. -/
theorem demand_fill_read_witness :
    (memS5.reader = Option.none → memS5.read 0x1000 4 = .error (.memRead 0x1000)) ∧
    (memS5.reader = some readerS5 → readerS5 0x1000 4 = Option.none →
      memS5.read 0x1000 4 = .error (.memRead 0x1000)) ∧
    (memS5.reader = some readerS5 →
      readerS5 0x1000 4 = some [0xAA, 0xBB, 0xCC, 0xDD] →
      ([0xAA, 0xBB, 0xCC, 0xDD] : List Nat).length = 4 →
      memS5.read 0x1000 4 = .ok (memS5Filled, [0xAA, 0xBB, 0xCC, 0xDD]) ∧
      (∀ j : Nat, j < 4 →
        memS5Filled.data (0x1000 + j) =
          some (([0xAA, 0xBB, 0xCC, 0xDD] : List Nat).getD j 0)) ∧
      (∀ r' : Option MemReader,
        Mem.read { memS5Filled with reader := r' } 0x1000 4 =
          .ok ({ memS5Filled with reader := r' }, [0xAA, 0xBB, 0xCC, 0xDD]))) :=
  demand_fill_read memS5 0x1000 4 readerS5 [0xAA, 0xBB, 0xCC, 0xDD]
    ⟨0, by decide, rfl⟩

/-- C6: strict-mode writes to a range containing an undefined byte.  With no
reader, or with a reader that answers `None`, the write fails with
`MemWriteError` carrying the address.  With a reader that claims the range
(returns data), the write succeeds and installs the *caller's* bytes — the
reader's copy is never fetched (the result does not depend on `rdata`).
And after `alloc(addr, size)` covering the range, the same store succeeds. -/
theorem strict_write_policy (d : MemData) (addr : Int) (size : Nat)
    (data rdata : List Nat) (w : Size) (v : Nat)
    (hundef : ∃ j : Nat, j < size ∧ d (addr + j) = Option.none) :
    ((Mem.write ⟨d, Option.none, true⟩ addr size data).2 =
      some (.memWrite addr)) ∧
    (∀ rd : MemReader, rd addr size = Option.none →
      (Mem.write ⟨d, some rd, true⟩ addr size data).2 = some (.memWrite addr)) ∧
    (∀ rd : MemReader, rd addr size = some rdata → data.length = size →
      (Mem.write ⟨d, some rd, true⟩ addr size data).2 = Option.none ∧
      (∀ j : Nat, j < size →
        (Mem.write ⟨d, some rd, true⟩ addr size data).1.data (addr + j) =
          some (data.getD j 0))) ∧
    ((Mem.alloc ⟨d, Option.none, true⟩ addr w.byteLen []).store addr w v).2 =
      Option.none := by
  have hfalse : (mWrite addr data d 0 size).2 = false := by
    apply mWrite_undef
    obtain ⟨j, hj, hn⟩ := hundef
    exact ⟨j, hj, by simpa using hn⟩
  rcases hmw : mWrite addr data d 0 size with ⟨d', ok⟩
  rw [hmw] at hfalse
  simp only at hfalse
  subst hfalse
  refine ⟨by simp [Mem.write, hmw], fun rd hrd => by simp [Mem.write, hmw, hrd],
    fun rd hrd hlen => ⟨by simp [Mem.write, hmw, hrd], fun j hj => ?_⟩, ?_⟩
  · obtain ⟨_, hvals⟩ := allocData_spec addr data data.length 0 d'
    have hval := hvals j (by omega)
    simp only [Nat.zero_add] at hval
    simp [Mem.write, hmw, hrd, Mem.alloc]
    simpa using hval
  · obtain ⟨_, hzero⟩ := allocData_spec addr ([] : List Nat) w.byteLen 0 d
    obtain ⟨ht, _, _⟩ := mWrite_defined addr (Mem.pack w v) w.byteLen 0
        (allocData addr [] d 0 w.byteLen) (fun j hj => by
          have := hzero j hj
          simp only [Nat.zero_add] at this
          simp [this])
    rcases hmw2 : mWrite addr (Mem.pack w v) (allocData addr [] d 0 w.byteLen)
        0 w.byteLen with ⟨d2, ok2⟩
    rw [hmw2] at ht
    simp only at ht
    subst ht
    simp [Mem.store, Mem.write, Mem.alloc, hmw2]

/-- C6 (witness): the spec's S6 scenario at `0x2000`, size 4, on a fully
undefined strict memory, with caller bytes `01 02 03 04` and reader bytes
`99 99 99 99`, plus the store-after-alloc at width `U32`. -/
theorem strict_write_policy_witness :
    ((Mem.write ⟨dEmpty, Option.none, true⟩ 0x2000 4 [1, 2, 3, 4]).2 =
      some (.memWrite 0x2000)) ∧
    (∀ rd : MemReader, rd 0x2000 4 = Option.none →
      (Mem.write ⟨dEmpty, some rd, true⟩ 0x2000 4 [1, 2, 3, 4]).2 =
        some (.memWrite 0x2000)) ∧
    (∀ rd : MemReader, rd 0x2000 4 = some [0x99, 0x99, 0x99, 0x99] →
      ([1, 2, 3, 4] : List Nat).length = 4 →
      (Mem.write ⟨dEmpty, some rd, true⟩ 0x2000 4 [1, 2, 3, 4]).2 =
        Option.none ∧
      (∀ j : Nat, j < 4 →
        (Mem.write ⟨dEmpty, some rd, true⟩ 0x2000 4 [1, 2, 3, 4]).1.data
          (0x2000 + j) = some (([1, 2, 3, 4] : List Nat).getD j 0))) ∧
    ((Mem.alloc ⟨dEmpty, Option.none, true⟩ 0x2000 (Size.byteLen .u32) []).store
      0x2000 .u32 0).2 = Option.none :=
  strict_write_policy dEmpty 0x2000 4 [1, 2, 3, 4] [0x99, 0x99, 0x99, 0x99]
    .u32 0 ⟨0, by decide, rfl⟩

/-- C10: in strict mode with no reader, a write whose first `k` target bytes
are defined but whose byte `k` is undefined raises `MemWriteError(addr)` —
yet the first `k` bytes have already been overwritten with the new data, so
the memory is mutated even though the operation reports failure. -/
theorem failing_write_not_atomic (m : Mem) (addr : Int) (size k : Nat)
    (data : List Nat)
    (hstrict : m.strict = true) (hrd : m.reader = Option.none)
    (hk : k < size)
    (hdef : ∀ j : Nat, j < k → (m.data (addr + j)).isSome)
    (hnone : m.data (addr + k) = Option.none) :
    (m.write addr size data).2 = some (.memWrite addr) ∧
    (∀ j : Nat, j < k →
      (m.write addr size data).1.data (addr + j) = some (data.getD j 0)) := by
  obtain ⟨ht, _, hv⟩ := mWrite_prefix addr data k size 0 m.data
      (fun j hj => by simpa using hdef j hj) (by simpa using hnone) hk
  rcases hmw : mWrite addr data m.data 0 size with ⟨d', ok⟩
  rw [hmw] at ht hv
  simp only at ht
  subst ht
  refine ⟨by simp [Mem.write, hmw, hstrict, hrd], fun j hj => ?_⟩
  have hval := hv j hj
  simp only [Nat.zero_add] at hval
  simp [Mem.write, hmw, hstrict, hrd]
  simpa using hval

/-- C10 (witness): on `memC10` (only byte `0` defined), a 2-byte write of
`11 22` at `0` fails with `MemWriteError(0)` after clobbering byte `0` with
`0x11`. -/
theorem failing_write_not_atomic_witness :
    (memC10.write 0 2 [0x11, 0x22]).2 = some (.memWrite 0) ∧
    (∀ j : Nat, j < 1 →
      (memC10.write 0 2 [0x11, 0x22]).1.data (0 + j) =
        some (([0x11, 0x22] : List Nat).getD j 0)) :=
  failing_write_not_atomic memC10 0 2 1 [0x11, 0x22] rfl rfl (by decide)
    (by decide) (by decide)

/-- C7 (counterexample): `Abi.call` catches the `CpuError` *base class*, so a
`CpuInstructionError` whose address equals `DUMMY_RET_ADDR` is also swallowed
as normal completion — contradicting the claim that every non-`CpuReadError`
error propagates regardless of its address. -/
theorem cpu_insn_error_at_sentinel_swallowed :
    Abi.recover (Except.error (VMError.cpuInsn DUMMY_RET_ADDR 3)) =
      Except.ok () := by
  rfl

/-- C7 (amended): the ABI call recovers exactly the errors of the `CpuError`
class — `CpuReadError` or `CpuInstructionError` — whose address equals
`DUMMY_RET_ADDR` (0xcafebabe); every other error, including a `CpuError` at
any other address and every memory error, propagates to the caller. -/
theorem abi_call_recovery (e : VMError) :
    (Abi.recover (Except.error e) = Except.ok () ↔
      e.isCpu = true ∧ e.addr = DUMMY_RET_ADDR) ∧
    (¬(e.isCpu = true ∧ e.addr = DUMMY_RET_ADDR) →
      Abi.recover (Except.error e) = Except.error e) ∧
    Abi.recover (Except.ok ()) = Except.ok () := by
  unfold Abi.recover
  by_cases h1 : e.isCpu = true <;> by_cases h2 : e.addr = DUMMY_RET_ADDR <;>
    simp [h1, h2]

/-- C7 (witness): the amended statement at the distinguished case
`CpuReadError(DUMMY_RET_ADDR)`. -/
theorem abi_call_recovery_witness :
    (Abi.recover (Except.error (VMError.cpuRead DUMMY_RET_ADDR 0)) =
        Except.ok () ↔
      (VMError.cpuRead DUMMY_RET_ADDR 0).isCpu = true ∧
      (VMError.cpuRead DUMMY_RET_ADDR 0).addr = DUMMY_RET_ADDR) ∧
    (¬((VMError.cpuRead DUMMY_RET_ADDR 0).isCpu = true ∧
        (VMError.cpuRead DUMMY_RET_ADDR 0).addr = DUMMY_RET_ADDR) →
      Abi.recover (Except.error (VMError.cpuRead DUMMY_RET_ADDR 0)) =
        Except.error (VMError.cpuRead DUMMY_RET_ADDR 0)) ∧
    Abi.recover (Except.ok ()) = Except.ok () :=
  abi_call_recovery (VMError.cpuRead DUMMY_RET_ADDR 0)

/-- C8 (counterexample): running a single taken branch (`insnC8` at `0x100`
jumping to `0x200`) leaves the IP register at `0x100` while the CPU goes on
to fetch — and fault at — `0x200`: between the branch and the next fetch the
IP does *not* hold the address of the next instruction to execute. -/
theorem run_ip_stale_after_taken_branch :
    (Cpu.run "R_EIP" storageC8 cpuSt0 0x100 2).2 =
      some (.cpuRead 0x200 0) ∧
    CpuSt.ipVal "R_EIP" (Cpu.run "R_EIP" storageC8 cpuSt0 0x100 2).1 = 0x100 ∧
    (0x100 : Int) ≠ 0x200 := by
  refine ⟨rfl, by decide, by decide⟩

/-- C8 (amended): during `Cpu.run`, the IP register is updated at every
fallthrough step (set to the instruction's fallthrough address before the
rest of the list runs) — but *not* after a taken branch: the `break` skips
the `set_ip` line, so the state returned for a taken branch is exactly the
executed state, with the IP register left at its previous value until the
next fallthrough. -/
theorem runList_ip_update (ip : String) (st st' : CpuSt) (nxt : Int)
    (insn : Insn) (rest : List Insn) :
    (Cpu.execute st insn = (st', Except.ok Option.none) →
      Cpu.runList ip st nxt (insn :: rest) =
        Cpu.runList ip
          { st' with regs := Cpu.setReg st'.regs ip false insn.next }
          insn.next rest) ∧
    (∀ target : Int, Cpu.execute st insn = (st', Except.ok (some target)) →
      Cpu.runList ip st nxt (insn :: rest) = (st', target, Option.none)) := by
  constructor
  · intro h
    simp [Cpu.runList, h]
  · intro t h
    simp [Cpu.runList, h]

/-- C8 (witness): the amended statement at the concrete taken branch
`insnC8` executed from `cpuSt0`. -/
theorem runList_ip_update_witness :
    (Cpu.execute cpuSt0 insnC8 =
        ((Cpu.execute cpuSt0 insnC8).1, Except.ok Option.none) →
      Cpu.runList "R_EIP" cpuSt0 0x100 [insnC8] =
        Cpu.runList "R_EIP"
          { (Cpu.execute cpuSt0 insnC8).1 with
              regs := Cpu.setReg (Cpu.execute cpuSt0 insnC8).1.regs "R_EIP"
                false insnC8.next }
          insnC8.next []) ∧
    (∀ target : Int, Cpu.execute cpuSt0 insnC8 =
        ((Cpu.execute cpuSt0 insnC8).1, Except.ok (some target)) →
      Cpu.runList "R_EIP" cpuSt0 0x100 [insnC8] =
        ((Cpu.execute cpuSt0 insnC8).1, target, Option.none)) :=
  runList_ip_update "R_EIP" cpuSt0 ((Cpu.execute cpuSt0 insnC8).1) 0x100
    insnC8 []

/-- C9: `Abi.align` is never the identity: for every `size` the aligned value
is strictly greater (`0 < ptr_len` for any real architecture), and when the
requested size is already a multiple of the pointer width, `Abi.buff`
allocates a full extra pointer width: `align(k * ptr_len) = (k+1) * ptr_len`. -/
theorem align_always_grows (ptrLen val k : Nat) (hp : 0 < ptrLen) :
    val < Abi.align ptrLen val ∧
    Abi.buffSize ptrLen (k * ptrLen) = (k + 1) * ptrLen := by
  constructor
  · have h := Nat.mod_lt val hp
    simp only [Abi.align]
    omega
  · simp only [Abi.buffSize, Abi.align, Nat.mul_mod_left, Nat.sub_zero]
    ring

/-- C9 (witness): alignment at the x86 pointer width 4: `align(5) > 5` and
`buff` of a 12-byte payload allocates 16 bytes. -/
theorem align_always_grows_witness :
    5 < Abi.align 4 5 ∧ Abi.buffSize 4 (3 * 4) = (3 + 1) * 4 :=
  align_always_grows 4 5 3 (by decide)

end OpenreilVM
